import Mathlib

/-!
Verification of the usage/cost engine of the steffes-chatbot repository.

The definitions below are shallow embeddings of the TypeScript sources:
  * `src/pages/api/cost.ts` (cost request handler, pricing candidate
    resolution, tokenization phase),
  * `src/pages/api/dashboard/usage.ts` (usage aggregation: totals and the
    byDay / byModel / byUser roll-ups),
  * `src/pages/api/dashboard/topics.ts` (topic extraction).

JavaScript `Map` objects are embedded as association lists that update the
first matching entry in place and append new entries at the end, which is
exactly the insertion-order semantics of `Map.get`/`Map.set`.  JavaScript
`Set`-based de-duplication is embedded by `addUnique`/`dedupFirst` (keep the
first insertion).  Stable `Array.prototype.sort` is embedded by a stable
insertion sort parameterised by the predicate "may stay in front of".
Monetary amounts (JS numbers) are embedded as rationals, token and message
counts as naturals.  External collaborators (the tiktoken encoder, the
`calcPrice` pricing table, the model registry read from the environment) are
parameters of the embedded functions.
-/

/-! ### String and list helpers -/

/-- Lowercasing of a string (JS `toLowerCase`; ASCII, like core
`String.toLower`), written structurally over the character list so that
proofs can evaluate it. -/
def toLowerStr (s : String) : String := ⟨s.data.map Char.toLower⟩

/-- Whitespace trimming of a string (JS `trim`), written structurally over
the character list. -/
def trimStr (s : String) : String :=
  ⟨((s.data.dropWhile Char.isWhitespace).reverse.dropWhile
      Char.isWhitespace).reverse⟩

/-- First `n` characters of a string (JS `slice(0, n)`), written
structurally over the character list. -/
def takeStr (s : String) (n : Nat) : String := ⟨s.data.take n⟩

/-- Append `x` to `l` unless it is already present (JS `Set.add` on a set
that is later spread in insertion order). -/
def addUnique (l : List String) (x : String) : List String :=
  if x ∈ l then l else l ++ [x]

/-- De-duplicate a list keeping the first occurrence of each element, in
order (JS `[...new Set(xs)]`). -/
def dedupFirst (l : List String) : List String :=
  l.foldl addUnique []

/-- Insert `x` into `l`, placing it before the first element `y` with
`le x y = true`.  Used to embed JS stable `Array.prototype.sort`. -/
def insertBy (le : α → α → Bool) (x : α) : List α → List α
  | [] => [x]
  | y :: ys => if le x y then x :: y :: ys else y :: insertBy le x ys

/-- Stable insertion sort: `le a b = true` means `a` may be placed before
`b` (comparator result `≤ 0` in JS terms). -/
def sortBy (le : α → α → Bool) : List α → List α
  | [] => []
  | x :: xs => insertBy le x (sortBy le xs)

/-! ### Embedding of `src/pages/api/cost.ts`

The handler tokenizes the system prompt, the prior messages and the new
assistant reply with a cl100k BPE encoder, resolves the public model id to a
list of pricing-table candidates and prices the usage with the first
candidate accepted by `calcPrice`.  The encoder (`tokenCount`), the pricing
table (`calcPrice`) and the model registry (`getModelConfigById`, which in
the source reads `LLM_MODELS_JSON` from the environment and throws on a
miss) are external collaborators, passed here as parameters. -/

/-- Server-side model registry entry (`LlmModelConfig` in
`src/utils/server/llmModels.ts`); only the fields consulted by the cost
handler are carried. `model` is the optional underlying provider model
name. -/
structure LlmModelConfig where
  id : String
  name : String
  endpoint : String
  model : Option String
  deriving DecidableEq

/-- Message of the chat payload: `{ role, content }`. -/
structure ChatMessage where
  role : String
  content : String
  deriving DecidableEq

/-- Usage record handed to the pricing table: `{ input_tokens, output_tokens }`. -/
structure TokenUsage where
  input_tokens : Nat
  output_tokens : Nat
  deriving DecidableEq

/-- Price returned by the external `calcPrice`; only `total_price` is read. -/
structure ModelPrice where
  total_price : ℚ
  deriving DecidableEq

/-- Response of the cost handler (`CostResponse` in the source). -/
structure CostResponse where
  inputTokens : Nat
  outputTokens : Nat
  totalCostUSD : ℚ
  priced : Bool
  pricingModelId : Option String
  warning : Option String
  deriving DecidableEq

/-- Static alias table of `getPricingModelCandidates` (cost.ts lines
104-110), keyed by the normalized (lowercased, trimmed) public id. -/
def aliasMap (s : String) : Option String :=
  if s = "claude-opus-4.5" then some "claude-opus-4-5"
  else if s = "claude-opus-45" then some "claude-opus-4-5"
  else if s = "claude-sonnet-4.5" then some "claude-sonnet-4-5"
  else if s = "claude-sonnet-45" then some "claude-sonnet-4-5"
  else none

/-- `getPricingModelCandidates` (cost.ts lines 90-117): a `Set` receives the
configured underlying model name (when the registry lookup succeeds and the
`model` field is truthy), then the public id, then the alias of the
normalized id; the spread of the `Set` preserves first-insertion order.
Registry lookup failures are swallowed by the `try`/`catch`. -/
def getPricingModelCandidates
    (getModelConfigById : String → Except String LlmModelConfig)
    (publicModelId : String) : List String :=
  let c0 : List String :=
    match getModelConfigById publicModelId with
    | .ok config =>
        match config.model with
        | some m => if m = "" then [] else addUnique [] m
        | none => []
    | .error _ => []
  let c1 := addUnique c0 publicModelId
  let normalized := trimStr (toLowerStr publicModelId)
  match aliasMap normalized with
  | some a => addUnique c1 a
  | none => c1

/-- Candidate list as the specification words it: the configured underlying
provider model name first (when the registry declares a non-empty one), then
the public id itself, then the static alias of the normalized id when one
exists, duplicates removed preserving first insertion. -/
def specCandidateList
    (getModelConfigById : String → Except String LlmModelConfig)
    (publicModelId : String) : List String :=
  dedupFirst
    ((match getModelConfigById publicModelId with
      | .ok config =>
          match config.model with
          | some m => if m = "" then [] else [m]
          | none => []
      | .error _ => []) ++
     [publicModelId] ++
     (match aliasMap (trimStr (toLowerStr publicModelId)) with
      | some a => [a]
      | none => []))

/-- Pricing loop of the cost handler (cost.ts lines 44-51): try candidates
in order and accept the first for which `calcPrice` is non-null, returning
the winning candidate together with its price. -/
def findPrice (calcPrice : TokenUsage → String → Option ModelPrice)
    (usage : TokenUsage) : List String → Option (String × ModelPrice)
  | [] => none
  | c :: cs =>
      match calcPrice usage c with
      | some p => some (c, p)
      | none => findPrice calcPrice usage cs

/-- Tokenization phase of the cost handler (cost.ts lines 25-37):
`inputTokens` starts at the encoded length of the system prompt and is
incremented by each prior message's encoded content length; `outputTokens`
is the encoded length of the assistant reply. -/
def usageOf (tokenCount : String → Nat) (prompt : String)
    (messages : List ChatMessage) (assistantMessage : String) : TokenUsage :=
  { input_tokens :=
      messages.foldl (fun acc m => acc + tokenCount m.content) (tokenCount prompt),
    output_tokens := tokenCount assistantMessage }

/-- Warning string built by the cost handler on a pricing miss (cost.ts
lines 53-58). -/
def pricingMissWarning (modelId : String) (cands : List String) : String :=
  "No price found for model \"" ++ modelId ++ "\". Tried: " ++
    String.intercalate ", " cands

/-- Cost computation of the handler (cost.ts lines 25-74): tokenize, resolve
pricing candidates, accept the first candidate that prices, and degrade to a
zero-cost unpriced result with a warning when none does. -/
def computeCost (getModelConfigById : String → Except String LlmModelConfig)
    (calcPrice : TokenUsage → String → Option ModelPrice)
    (tokenCount : String → Nat) (modelId : String)
    (messages : List ChatMessage) (prompt assistantMessage : String) :
    CostResponse :=
  let usage := usageOf tokenCount prompt messages assistantMessage
  let pricingCandidates := getPricingModelCandidates getModelConfigById modelId
  match findPrice calcPrice usage pricingCandidates with
  | some (c, p) =>
      { inputTokens := usage.input_tokens,
        outputTokens := usage.output_tokens,
        totalCostUSD := p.total_price,
        priced := true,
        pricingModelId := some c,
        warning := none }
  | none =>
      { inputTokens := usage.input_tokens,
        outputTokens := usage.output_tokens,
        totalCostUSD := 0,
        priced := false,
        pricingModelId := none,
        warning :=
          if pricingCandidates.length > 0 then
            some (pricingMissWarning modelId pricingCandidates)
          else none }

/-- The tokenizer's encode call can throw (for example on a malformed
message whose content is not a string).  This embedding of cost.ts lines
25-32 and 81-85 tracks, next to the token counts, whether
`encoding.free()` was invoked before the handler returned: `free` runs only
after all three encode phases succeed, and the `catch` block returns
without freeing. -/
def encodeMessagesE (encode : String → Except String Nat) :
    List ChatMessage → Nat → Except String Nat
  | [], acc => .ok acc
  | m :: rest, acc =>
      match encode m.content with
      | .error err => .error err
      | .ok n => encodeMessagesE encode rest (acc + n)

/-- Tokenization phase with a fallible encoder; the boolean records whether
the underlying encoding engine was released (`encoding.free()`) before the
handler returned. -/
def runTokenization (encode : String → Except String Nat) (prompt : String)
    (messages : List ChatMessage) (assistantMessage : String) :
    Except String (Nat × Nat) × Bool :=
  match encode prompt with
  | .error err => (.error err, false)
  | .ok p =>
      match encodeMessagesE encode messages p with
      | .error err => (.error err, false)
      | .ok inTok =>
          match encode assistantMessage with
          | .error err => (.error err, false)
          | .ok outTok => (.ok (inTok, outTok), true)

/-- Fixture: a model registry with one entry whose configured underlying
provider model name differs from the public id. -/
def witnessRegistry : String → Except String LlmModelConfig := fun mid =>
  if mid = "gpt-test" then
    .ok { id := "gpt-test", name := "Test", endpoint := "endpoint",
          model := some "claude-opus-4-5" }
  else .error "no such model"

/-- Fixture: a pricing table that prices both the configured underlying
model name and the raw public id, at different prices. -/
def witnessPriceTable : TokenUsage → String → Option ModelPrice := fun _ c =>
  if c = "claude-opus-4-5" then some { total_price := 3 }
  else if c = "gpt-test" then some { total_price := 5 }
  else none

/-- Fixture: a registry whose lookup always throws, and a pricing table
that never resolves. -/
def witnessEmptyRegistry : String → Except String LlmModelConfig :=
  fun _ => .error "Missing env var LLM_MODELS_JSON"

def witnessEmptyPriceTable : TokenUsage → String → Option ModelPrice :=
  fun _ _ => none

/-- Fixture: an encoder that throws on one particular content string and
otherwise returns its length. -/
def witnessThrowingEncode : String → Except String Nat := fun s =>
  if s = "BAD" then .error "tokenizer failure" else .ok s.length

/-! ### Embedding of the usage aggregation (`src/pages/api/dashboard/usage.ts`)

The handler fetches a bounded window of usage events and folds over them
once (lines 145-198), accumulating the grand totals and three `Map`-backed
roll-ups keyed by day (first 10 characters of `createdAt` when it is a
string; events with no day key are skipped in this roll-up only), by model
(`pricingModelId ?? modelId ?? 'unknown'`) and by user
(`userId ?? 'anonymous'`).  The maps' values are then sorted (descending by
day string, respectively by summed cost) and truncated to 60 / 50 / 50 rows
(lines 200-210). -/

/-- Usage event as read from the store (`DashboardUsageEvent`); fields the
source guards with `?? defaults` or `typeof` checks are optional here. -/
structure DashboardUsageEvent where
  userId : Option String
  conversationId : String
  assistantMessageIndex : Nat
  modelId : Option String
  pricingModelId : Option String
  priced : Bool
  inputTokens : Nat
  outputTokens : Nat
  totalCostUSD : ℚ
  createdAt : Option String
  deriving DecidableEq

/-- Grand totals (`DashboardUsageTotals`). -/
structure DashboardUsageTotals where
  totalCostUSD : ℚ
  inputTokens : Nat
  outputTokens : Nat
  assistantMessages : Nat
  pricedAssistantMessages : Nat
  deriving DecidableEq

/-- Row of the byDay roll-up (`DashboardUsageByDayRow`). -/
structure DashboardUsageByDayRow where
  day : String
  totalCostUSD : ℚ
  inputTokens : Nat
  outputTokens : Nat
  assistantMessages : Nat
  deriving DecidableEq

/-- Row of the byModel roll-up (`DashboardUsageByModelRow`). -/
structure DashboardUsageByModelRow where
  model : String
  totalCostUSD : ℚ
  inputTokens : Nat
  outputTokens : Nat
  assistantMessages : Nat
  pricedAssistantMessages : Nat
  deriving DecidableEq

/-- Row of the byUser roll-up (`DashboardUsageByUserRow`; the response
field is named `topUsers`). -/
structure DashboardUsageByUserRow where
  userId : String
  totalCostUSD : ℚ
  inputTokens : Nat
  outputTokens : Nat
  assistantMessages : Nat
  deriving DecidableEq

/-- Day key of an event (usage.ts lines 152-153): the first 10 characters
of `createdAt` when it is a string, the empty string otherwise. -/
def eventDay (e : DashboardUsageEvent) : String :=
  match e.createdAt with
  | some s => takeStr s 10
  | none => ""

/-- Model key of an event (usage.ts line 169): `pricingModelId ?? modelId
?? 'unknown'`. -/
def modelKey (e : DashboardUsageEvent) : String :=
  match e.pricingModelId with
  | some m => m
  | none =>
      match e.modelId with
      | some m => m
      | none => "unknown"

/-- User key of an event (usage.ts line 185): `userId ?? 'anonymous'`. -/
def userKey (e : DashboardUsageEvent) : String :=
  match e.userId with
  | some u => u
  | none => "anonymous"

/-- Totals accumulation for one event (usage.ts lines 146-150). -/
def totalsStep (t : DashboardUsageTotals) (e : DashboardUsageEvent) :
    DashboardUsageTotals :=
  { totalCostUSD := t.totalCostUSD + e.totalCostUSD,
    inputTokens := t.inputTokens + e.inputTokens,
    outputTokens := t.outputTokens + e.outputTokens,
    assistantMessages := t.assistantMessages + 1,
    pricedAssistantMessages :=
      t.pricedAssistantMessages + (if e.priced then 1 else 0) }

/-- `byDayMap.get(day) ?? fresh` followed by accumulation and
`byDayMap.set(day, ...)` (usage.ts lines 155-166): update the first entry
with the event's day in place, or append a fresh row at the end. -/
def bumpDay (e : DashboardUsageEvent) :
    List DashboardUsageByDayRow → List DashboardUsageByDayRow
  | [] =>
      [{ day := eventDay e,
         totalCostUSD := e.totalCostUSD,
         inputTokens := e.inputTokens,
         outputTokens := e.outputTokens,
         assistantMessages := 1 }]
  | r :: rs =>
      if r.day = eventDay e then
        { r with
          totalCostUSD := r.totalCostUSD + e.totalCostUSD,
          inputTokens := r.inputTokens + e.inputTokens,
          outputTokens := r.outputTokens + e.outputTokens,
          assistantMessages := r.assistantMessages + 1 } :: rs
      else r :: bumpDay e rs

/-- byDay accumulation for one event (usage.ts lines 152-167): events whose
day key is the empty string (missing or empty `createdAt`) are skipped. -/
def dayStep (m : List DashboardUsageByDayRow) (e : DashboardUsageEvent) :
    List DashboardUsageByDayRow :=
  if eventDay e = "" then m else bumpDay e m

/-- byModel map update for one event (usage.ts lines 169-183). -/
def bumpModel (e : DashboardUsageEvent) :
    List DashboardUsageByModelRow → List DashboardUsageByModelRow
  | [] =>
      [{ model := modelKey e,
         totalCostUSD := e.totalCostUSD,
         inputTokens := e.inputTokens,
         outputTokens := e.outputTokens,
         assistantMessages := 1,
         pricedAssistantMessages := if e.priced then 1 else 0 }]
  | r :: rs =>
      if r.model = modelKey e then
        { r with
          totalCostUSD := r.totalCostUSD + e.totalCostUSD,
          inputTokens := r.inputTokens + e.inputTokens,
          outputTokens := r.outputTokens + e.outputTokens,
          assistantMessages := r.assistantMessages + 1,
          pricedAssistantMessages :=
            r.pricedAssistantMessages + (if e.priced then 1 else 0) } :: rs
      else r :: bumpModel e rs

/-- byModel accumulation step (every event contributes). -/
def modelStep (m : List DashboardUsageByModelRow) (e : DashboardUsageEvent) :
    List DashboardUsageByModelRow :=
  bumpModel e m

/-- byUser map update for one event (usage.ts lines 185-197). -/
def bumpUser (e : DashboardUsageEvent) :
    List DashboardUsageByUserRow → List DashboardUsageByUserRow
  | [] =>
      [{ userId := userKey e,
         totalCostUSD := e.totalCostUSD,
         inputTokens := e.inputTokens,
         outputTokens := e.outputTokens,
         assistantMessages := 1 }]
  | r :: rs =>
      if r.userId = userKey e then
        { r with
          totalCostUSD := r.totalCostUSD + e.totalCostUSD,
          inputTokens := r.inputTokens + e.inputTokens,
          outputTokens := r.outputTokens + e.outputTokens,
          assistantMessages := r.assistantMessages + 1 } :: rs
      else r :: bumpUser e rs

/-- byUser accumulation step (every event contributes). -/
def userStep (m : List DashboardUsageByUserRow) (e : DashboardUsageEvent) :
    List DashboardUsageByUserRow :=
  bumpUser e m

/-- Accumulator state of the single pass over the events (usage.ts lines
133-143). -/
structure AggState where
  totals : DashboardUsageTotals
  byDayMap : List DashboardUsageByDayRow
  byModelMap : List DashboardUsageByModelRow
  byUserMap : List DashboardUsageByUserRow
  deriving DecidableEq

/-- Zero totals, the initial accumulator (usage.ts lines 133-139). -/
def initTotals : DashboardUsageTotals :=
  { totalCostUSD := 0, inputTokens := 0, outputTokens := 0,
    assistantMessages := 0, pricedAssistantMessages := 0 }

def initAggState : AggState :=
  { totals := initTotals, byDayMap := [], byModelMap := [], byUserMap := [] }

/-- One iteration of the event loop (usage.ts lines 145-198). -/
def aggStep (s : AggState) (e : DashboardUsageEvent) : AggState :=
  { totals := totalsStep s.totals e,
    byDayMap := dayStep s.byDayMap e,
    byModelMap := modelStep s.byModelMap e,
    byUserMap := userStep s.byUserMap e }

/-- Accumulator state after the whole event loop. -/
def aggStateOf (events : List DashboardUsageEvent) : AggState :=
  events.foldl aggStep initAggState

/-- Comparator of the byDay sort (usage.ts line 201): `a` may stay before
`b` unless `a.day < b.day` (descending by day string). -/
def dayRowLe (a b : DashboardUsageByDayRow) : Bool :=
  !(decide (a.day < b.day))

/-- Comparator of the byModel sort (usage.ts line 205): descending by
summed cost, stable on ties. -/
def modelRowLe (a b : DashboardUsageByModelRow) : Bool :=
  decide (b.totalCostUSD ≤ a.totalCostUSD)

/-- Comparator of the topUsers sort (usage.ts line 209): descending by
summed cost, stable on ties. -/
def userRowLe (a b : DashboardUsageByUserRow) : Bool :=
  decide (b.totalCostUSD ≤ a.totalCostUSD)

/-- Aggregation part of the usage response (usage.ts lines 133-210 and
212-219): totals plus the sorted, truncated roll-ups.  The response field
for the byUser roll-up is named `topUsers` in the source. -/
structure AggregateResult where
  totals : DashboardUsageTotals
  byDay : List DashboardUsageByDayRow
  byModel : List DashboardUsageByModelRow
  topUsers : List DashboardUsageByUserRow
  deriving DecidableEq

def aggregateUsage (events : List DashboardUsageEvent) : AggregateResult :=
  let s := aggStateOf events
  { totals := s.totals,
    byDay := (sortBy dayRowLe s.byDayMap).take 60,
    byModel := (sortBy modelRowLe s.byModelMap).take 50,
    topUsers := (sortBy userRowLe s.byUserMap).take 50 }

/-- Fixture: an event whose `createdAt` is a non-empty string that is not
parseable as a timestamp. -/
def evGarbage : DashboardUsageEvent :=
  { userId := some "u1", conversationId := "c1", assistantMessageIndex := 0,
    modelId := some "m1", pricingModelId := none, priced := true,
    inputTokens := 1, outputTokens := 1, totalCostUSD := 1,
    createdAt := some "garbage" }

/-- Fixture: the i-th of 61 events on 61 distinct days, each with cost 1
and both grouping keys present. -/
def evDay (i : Nat) : DashboardUsageEvent :=
  { userId := some "u", conversationId := "c", assistantMessageIndex := 0,
    modelId := some "m", pricingModelId := none, priced := true,
    inputTokens := 0, outputTokens := 0, totalCostUSD := 1,
    createdAt := some (String.mk [Char.ofNat (65 + i)]) }

def manyDayEvents : List DashboardUsageEvent :=
  (List.range 61).map evDay

/-- Fixture: two events on two days, mirroring the specification's
aggregation scenario. -/
def reconcileEvents : List DashboardUsageEvent :=
  [{ userId := some "u1", conversationId := "c1", assistantMessageIndex := 0,
     modelId := some "gpt-test", pricingModelId := some "gpt-test",
     priced := true, inputTokens := 100, outputTokens := 50,
     totalCostUSD := 2/100, createdAt := some "2024-01-01T00:00:00Z" },
   { userId := some "u1", conversationId := "c1", assistantMessageIndex := 1,
     modelId := some "gpt-test", pricingModelId := none, priced := false,
     inputTokens := 80, outputTokens := 0, totalCostUSD := 0,
     createdAt := some "2024-01-02T00:00:00Z" }]

/-! ### Embedding of the topic extraction (`src/pages/api/dashboard/topics.ts`)

`computeTopics` folds over a window of chat documents: for each document it
extracts the first user-authored question, tokenizes it (lowercase, split
on non-alphanumeric runs, drop short / stopword / all-digit tokens,
de-duplicate within the document) and bumps a `Map` keyed by keyword whose
values carry the document count, the latest timestamp and up to 5 candidate
sample (chatId, question) pairs.  The entries are then sorted descending by
count, truncated to 50 and rendered to rows, preferring a sample chat id
not used by a higher-ranked row. -/

/-- One turn of `questionAnswerTuple`: `{ who: { kind }, message }`. -/
structure QATurn where
  whoKind : Option String
  message : Option String
  deriving DecidableEq

/-- Raw chat document (`RawChatDoc`): `{ id, _ts, questionAnswerTuple }`.
`ts` is the Cosmos `_ts` epoch-seconds field. -/
structure RawChatDoc where
  id : String
  ts : Option Nat
  questionAnswerTuple : List QATurn
  deriving DecidableEq

/-- `extractUserQuestion` (topics.ts lines 203-210): the trimmed message of
the first tuple entry authored by a user, or the empty string. -/
def extractUserQuestion (doc : RawChatDoc) : String :=
  match doc.questionAnswerTuple.find? (fun x => x.whoKind == some "user") with
  | some user =>
      match user.message with
      | some msg => trimStr msg
      | none => ""
  | none => ""

/-- Stopword set of topics.ts lines 212-271. -/
def STOPWORDS : List String :=
  ["a", "an", "and", "are", "as", "at", "be", "but", "by", "can", "could",
   "did", "do", "does", "for", "from", "have", "has", "had", "how", "i",
   "if", "in", "into", "is", "it", "its", "just", "me", "my", "of", "on",
   "or", "our", "please", "show", "so", "that", "the", "their", "then",
   "there", "these", "this", "to", "up", "us", "was", "we", "what", "when",
   "where", "which", "why", "will", "with", "you", "your"]

/-- Characters kept by the split regex `[^a-z0-9]+` after lowercasing. -/
def isKeywordChar (c : Char) : Bool := c.isLower || c.isDigit

/-- Split a character list into pieces at every maximal run of
non-keyword characters (the JS `split(/[^a-z0-9]+/g)`); empty pieces are
produced at the ends and filtered out by the caller, as in the source. -/
def splitRunsAux (cur : List Char) (acc : List String) :
    List Char → List String
  | [] => acc ++ [⟨cur.reverse⟩]
  | c :: rest =>
      if isKeywordChar c then splitRunsAux (c :: cur) acc rest
      else splitRunsAux [] (acc ++ [⟨cur.reverse⟩]) rest

def splitNonAlnum (s : String) : List String := splitRunsAux [] [] s.data

/-- `extractKeywords` (topics.ts lines 273-292): lowercase, split on
non-alphanumeric runs, trim, drop empties, drop tokens shorter than 3
characters, stopwords and all-digit tokens, then de-duplicate keeping the
first occurrence. -/
def extractKeywords (text : String) : List String :=
  let parts :=
    ((splitNonAlnum (toLowerStr text)).map trimStr).filter (fun p => p ≠ "")
  let keywords := parts.filter (fun p =>
    decide (3 ≤ p.length) && !(STOPWORDS.contains p) &&
      !(p.data.all Char.isDigit))
  dedupFirst keywords

/-- Keywords of a document's first user question. -/
def docKeywords (doc : RawChatDoc) : List String :=
  extractKeywords (extractUserQuestion doc)

/-- Candidate sample pair kept per keyword (topics.ts lines 120-124). -/
structure TopicCandidate where
  chatId : String
  tsSeconds : Nat
  question : String
  deriving DecidableEq

/-- Value of the per-keyword counter map (topics.ts lines 115-126). -/
structure KeywordInfo where
  count : Nat
  lastTsSeconds : Nat
  candidates : List TopicCandidate
  deriving DecidableEq

/-- Row of the topics response (`DashboardTopicRow`).  The source renders
`lastSeenAt` as an ISO timestamp from `lastTsSeconds` (falling back to the
current time when it is zero); that rendering happens at the serving
boundary and is kept as the raw seconds value here. -/
structure DashboardTopicRow where
  keyword : String
  count : Nat
  lastTsSeconds : Nat
  sampleQuestion : Option String
  sampleChatId : Option String
  deriving DecidableEq

def defaultTopicRow : DashboardTopicRow :=
  { keyword := "", count := 0, lastTsSeconds := 0,
    sampleQuestion := none, sampleChatId := none }

/-- Comparator of the per-keyword candidate sort (topics.ts line 168):
descending by timestamp, stable. -/
def candLe (a b : TopicCandidate) : Bool := decide (b.tsSeconds ≤ a.tsSeconds)

/-- Fresh map entry for a keyword's first contributing document
(topics.ts lines 137-148). -/
def freshKeywordInfo (docId : String) (ts : Option Nat) (question : String) :
    KeywordInfo :=
  { count := 1, lastTsSeconds := ts.getD 0,
    candidates :=
      [{ chatId := docId, tsSeconds := ts.getD 0, question := question }] }

/-- Map entry update for a further contributing document (topics.ts lines
149-172): bump the count, raise the latest timestamp, and add a candidate
pair when the chat id is new, re-sorting and truncating to 5. -/
def updateKeywordInfo (docId : String) (ts : Option Nat) (question : String)
    (info : KeywordInfo) : KeywordInfo :=
  { count := info.count + 1,
    lastTsSeconds :=
      match ts with
      | some t => if info.lastTsSeconds < t then t else info.lastTsSeconds
      | none => info.lastTsSeconds,
    candidates :=
      if info.candidates.any (fun c => c.chatId == docId) then
        info.candidates
      else
        (sortBy candLe (info.candidates ++
          [{ chatId := docId, tsSeconds := ts.getD 0,
             question := question }])).take 5 }

/-- `counts.get(keyword)` / `counts.set(keyword, ...)` for one keyword of
one document (topics.ts lines 135-174). -/
def bumpKeyword (docId : String) (ts : Option Nat) (question : String)
    (k : String) : List (String × KeywordInfo) → List (String × KeywordInfo)
  | [] => [(k, freshKeywordInfo docId ts question)]
  | (k0, info) :: rest =>
      if k0 = k then (k0, updateKeywordInfo docId ts question info) :: rest
      else (k0, info) :: bumpKeyword docId ts question k rest

/-- Per-document step of `computeTopics` (topics.ts lines 128-175):
documents without a user question are skipped entirely. -/
def docStep (m : List (String × KeywordInfo)) (doc : RawChatDoc) :
    List (String × KeywordInfo) :=
  let question := extractUserQuestion doc
  if question = "" then m
  else
    (extractKeywords question).foldl
      (fun m k => bumpKeyword doc.id doc.ts question k m) m

/-- The keyword counter map after the whole document loop. -/
def buildCounts (docs : List RawChatDoc) : List (String × KeywordInfo) :=
  docs.foldl docStep []

/-- Comparator of the row sort (topics.ts line 180): descending by count,
stable. -/
def topicLe (a b : String × KeywordInfo) : Bool := decide (b.2.count ≤ a.2.count)

/-- Sample candidate choice of the row construction (topics.ts lines
183-185): the first candidate whose chat id is not already used, falling
back to the top candidate (`?? candidates[0]`, which is `none` only when
the candidate list is empty). -/
def pickCandidate (used : List String) (cands : List TopicCandidate) :
    Option TopicCandidate :=
  match cands.find? (fun c => !(used.contains c.chatId)) with
  | some c => some c
  | none => cands.head?

/-- Row construction (topics.ts lines 177-198): pick the first candidate
whose chat id is not already used by a higher-ranked row, falling back to
the top candidate; a truthy (non-empty) chosen chat id is recorded as
used. -/
def mkTopicRows : List String → List (String × KeywordInfo) →
    List DashboardTopicRow
  | _, [] => []
  | used, (k, info) :: rest =>
      let cand := pickCandidate used info.candidates
      let usedNext :=
        match cand with
        | some c => if c.chatId ≠ "" then used ++ [c.chatId] else used
        | none => used
      { keyword := k, count := info.count,
        lastTsSeconds := info.lastTsSeconds,
        sampleQuestion := cand.map (fun c => c.question),
        sampleChatId := cand.map (fun c => c.chatId) } ::
        mkTopicRows usedNext rest

/-- `computeTopics` (topics.ts lines 114-201). -/
def computeTopics (docs : List RawChatDoc) : List DashboardTopicRow :=
  mkTopicRows [] ((sortBy topicLe (buildCounts docs)).take 50)

/-- Observer: the count stored for keyword `k` in the counter map (0 when
the keyword is absent). -/
def countOf : List (String × KeywordInfo) → String → Nat
  | [], _ => 0
  | (k0, info) :: rest, k => if k0 = k then info.count else countOf rest k

/-- Fixture: two documents, the keyword "reset" appearing three times in
the first and once in the second. -/
def topicDocsA : List RawChatDoc :=
  [{ id := "chat1", ts := some 100,
     questionAnswerTuple :=
       [{ whoKind := some "user", message := some "reset reset reset password" },
        { whoKind := some "bot", message := some "ok" }] },
   { id := "chat2", ts := some 200,
     questionAnswerTuple :=
       [{ whoKind := some "user", message := some "reset the account" }] }]

/-- Fixture: a single undated document with a three-keyword question. -/
def topicDocsB : List RawChatDoc :=
  [{ id := "doc-a", ts := none,
     questionAnswerTuple :=
       [{ whoKind := some "user", message := some "invoice history export" }] }]

/-! ### List lemmas -/

theorem mem_addUnique {l : List String} {x y : String} :
    y ∈ addUnique l x ↔ y ∈ l ∨ y = x := by
  unfold addUnique
  by_cases h : x ∈ l
  · simp only [if_pos h]
    constructor
    · exact Or.inl
    · rintro (hy | rfl)
      · exact hy
      · exact h
  · simp [if_neg h, List.mem_append]

theorem addUnique_ne_nil (l : List String) (x : String) : addUnique l x ≠ [] := by
  unfold addUnique
  by_cases h : x ∈ l <;> simp [h]
  intro hnil
  rw [hnil] at h
  simp at h

theorem head?_addUnique {l : List String} (x : String) (h : l ≠ []) :
    (addUnique l x).head? = l.head? := by
  unfold addUnique
  by_cases hx : x ∈ l <;> simp [hx]
  cases l with
  | nil => exact absurd rfl h
  | cons a as => simp

theorem nodup_addUnique {l : List String} {x : String} (h : l.Nodup) :
    (addUnique l x).Nodup := by
  unfold addUnique
  by_cases hx : x ∈ l
  · simpa [if_pos hx] using h
  · rw [if_neg hx, List.nodup_append]
    refine ⟨h, List.nodup_singleton x, ?_⟩
    intro a ha hax
    rw [List.mem_singleton] at hax
    exact hx (hax ▸ ha)

theorem nodup_foldl_addUnique (l : List String) :
    ∀ acc : List String, acc.Nodup → (l.foldl addUnique acc).Nodup := by
  induction l with
  | nil => intro acc h; simpa using h
  | cons x xs ih =>
      intro acc h
      exact ih (addUnique acc x) (nodup_addUnique h)

theorem mem_foldl_addUnique (l : List String) :
    ∀ (acc : List String) (y : String),
      y ∈ l.foldl addUnique acc ↔ y ∈ acc ∨ y ∈ l := by
  induction l with
  | nil => intro acc y; simp
  | cons x xs ih =>
      intro acc y
      simp only [List.foldl_cons, ih, mem_addUnique, List.mem_cons]
      tauto

theorem nodup_dedupFirst (l : List String) : (dedupFirst l).Nodup :=
  nodup_foldl_addUnique l [] List.nodup_nil

theorem mem_dedupFirst {l : List String} {y : String} :
    y ∈ dedupFirst l ↔ y ∈ l := by
  unfold dedupFirst
  rw [mem_foldl_addUnique]
  simp

theorem count_dedupFirst (l : List String) (k : String) :
    (dedupFirst l).count k = if k ∈ l then 1 else 0 := by
  by_cases h : k ∈ l
  · simp only [h, if_true]
    exact List.count_eq_one_of_mem (nodup_dedupFirst l) (mem_dedupFirst.mpr h)
  · simp only [h, if_false]
    exact List.count_eq_zero.mpr (fun hm => h (mem_dedupFirst.mp hm))

theorem length_insertBy (le : α → α → Bool) (x : α) (l : List α) :
    (insertBy le x l).length = l.length + 1 := by
  induction l with
  | nil => rfl
  | cons y ys ih =>
      unfold insertBy
      by_cases h : le x y <;> simp [h, ih]

theorem length_sortBy (le : α → α → Bool) (l : List α) :
    (sortBy le l).length = l.length := by
  induction l with
  | nil => rfl
  | cons y ys ih => simp [sortBy, length_insertBy, ih]

theorem mem_insertBy (le : α → α → Bool) (x a : α) (l : List α) :
    a ∈ insertBy le x l ↔ a = x ∨ a ∈ l := by
  induction l with
  | nil => simp [insertBy]
  | cons y ys ih =>
      unfold insertBy
      by_cases h : le x y
      · simp [h]
      · simp [h, ih]
        tauto

theorem mem_sortBy (le : α → α → Bool) (a : α) (l : List α) :
    a ∈ sortBy le l ↔ a ∈ l := by
  induction l with
  | nil => simp [sortBy]
  | cons y ys ih => simp [sortBy, mem_insertBy, ih]

theorem map_sum_insertBy [AddCommMonoid β] (le : α → α → Bool) (f : α → β)
    (x : α) (l : List α) :
    ((insertBy le x l).map f).sum = f x + (l.map f).sum := by
  induction l with
  | nil => simp [insertBy]
  | cons y ys ih =>
      unfold insertBy
      by_cases h : le x y
      · simp [h]
      · simp [h, ih]
        abel

theorem map_sum_sortBy [AddCommMonoid β] (le : α → α → Bool) (f : α → β)
    (l : List α) : ((sortBy le l).map f).sum = (l.map f).sum := by
  induction l with
  | nil => rfl
  | cons y ys ih => simp [sortBy, map_sum_insertBy, ih]

theorem sortBy_ne_nil (le : α → α → Bool) {l : List α} (h : l ≠ []) :
    sortBy le l ≠ [] := by
  intro hnil
  apply h
  have := length_sortBy le l
  rw [hnil] at this
  exact List.length_eq_zero.mp this.symm

theorem take_of_length_le {l : List α} {n : Nat} (h : l.length ≤ n) :
    l.take n = l :=
  List.take_of_length_le h

theorem take_ne_nil_of_ne_nil {l : List α} {n : Nat} (hl : l ≠ []) (hn : n ≠ 0) :
    l.take n ≠ [] := by
  cases l with
  | nil => exact absurd rfl hl
  | cons a as =>
      cases n with
      | zero => exact absurd rfl hn
      | succ m => simp

/-! ### Lemmas about the cost handler -/

theorem self_mem_getPricingModelCandidates
    (g : String → Except String LlmModelConfig) (id : String) :
    id ∈ getPricingModelCandidates g id := by
  unfold getPricingModelCandidates
  have h1 : id ∈ addUnique
      (match g id with
       | .ok config =>
           match config.model with
           | some m => if m = "" then [] else addUnique [] m
           | none => []
       | .error _ => []) id := mem_addUnique.mpr (Or.inr rfl)
  cases haliased : aliasMap (trimStr (toLowerStr id)) with
  | none => simpa [haliased] using h1
  | some a =>
      simp only [haliased]
      exact mem_addUnique.mpr (Or.inl h1)

theorem getPricingModelCandidates_ne_nil
    (g : String → Except String LlmModelConfig) (id : String) :
    getPricingModelCandidates g id ≠ [] :=
  List.ne_nil_of_mem (self_mem_getPricingModelCandidates g id)

theorem findPrice_eq_none (calcPrice : TokenUsage → String → Option ModelPrice)
    (usage : TokenUsage) (l : List String)
    (h : ∀ c ∈ l, calcPrice usage c = none) :
    findPrice calcPrice usage l = none := by
  induction l with
  | nil => rfl
  | cons c cs ih =>
      unfold findPrice
      rw [h c (List.mem_cons_self c cs)]
      exact ih (fun x hx => h x (List.mem_cons_of_mem c hx))

theorem foldl_add_tokenCount (tokenCount : String → Nat)
    (msgs : List ChatMessage) :
    ∀ a : Nat,
      msgs.foldl (fun acc m => acc + tokenCount m.content) a =
        a + (msgs.map (fun m => tokenCount m.content)).sum := by
  induction msgs with
  | nil => intro a; simp
  | cons m rest ih =>
      intro a
      simp only [List.foldl_cons, List.map_cons, List.sum_cons, ih]
      omega

theorem head?_getPricingModelCandidates_of_config
    (g : String → Except String LlmModelConfig) (id : String)
    (cfg : LlmModelConfig) (u : String)
    (hg : g id = .ok cfg) (hm : cfg.model = some u) (hne : u ≠ "") :
    (getPricingModelCandidates g id).head? = some u := by
  have hu : addUnique [] u = [u] := by simp [addUnique]
  simp only [getPricingModelCandidates, hg, hm, if_neg hne, hu]
  cases halias : aliasMap (trimStr (toLowerStr id)) with
  | none =>
      rw [head?_addUnique id (by simp)]
      rfl
  | some a =>
      rw [head?_addUnique a (addUnique_ne_nil _ _), head?_addUnique id (by simp)]
      rfl

/-! ### Claims about the cost handler -/

/-- Claim C2: the pricing candidate list is ordered as configured underlying
model name (when declared), then the public id, then the static alias of
the normalized id, duplicates removed preserving first insertion
(refinement of `getPricingModelCandidates` against the specification's
wording); and the cost computation accepts the first candidate that prices,
so a configured underlying model name that prices successfully is chosen
over the raw public id even if the raw id would also price successfully. -/
theorem pricing_candidate_order_and_precedence
    (g : String → Except String LlmModelConfig) (publicModelId : String) :
    getPricingModelCandidates g publicModelId =
      specCandidateList g publicModelId ∧
    ∀ (calcPrice : TokenUsage → String → Option ModelPrice)
      (tokenCount : String → Nat) (messages : List ChatMessage)
      (prompt assistantMessage : String) (cfg : LlmModelConfig)
      (u : String) (p : ModelPrice),
      g publicModelId = .ok cfg → cfg.model = some u → u ≠ "" →
      calcPrice (usageOf tokenCount prompt messages assistantMessage) u = some p →
      (computeCost g calcPrice tokenCount publicModelId messages prompt
          assistantMessage).pricingModelId = some u ∧
      (computeCost g calcPrice tokenCount publicModelId messages prompt
          assistantMessage).priced = true ∧
      (computeCost g calcPrice tokenCount publicModelId messages prompt
          assistantMessage).totalCostUSD = p.total_price := by
  constructor
  · unfold getPricingModelCandidates specCandidateList dedupFirst
    cases hg : g publicModelId with
    | error e =>
        cases halias : aliasMap (trimStr (toLowerStr publicModelId)) <;>
          simp [halias, List.foldl]
    | ok cfg =>
        cases hm : cfg.model with
        | none =>
            cases halias : aliasMap (trimStr (toLowerStr publicModelId)) <;>
              simp [hm, halias, List.foldl]
        | some m =>
            by_cases hme : m = "" <;>
              cases halias : aliasMap (trimStr (toLowerStr publicModelId)) <;>
                simp [hm, hme, halias, List.foldl]
  · intro calcPrice tokenCount messages prompt assistantMessage cfg u p
      hg hm hne hp
    have hhead := head?_getPricingModelCandidates_of_config g publicModelId
      cfg u hg hm hne
    cases hcand : getPricingModelCandidates g publicModelId with
    | nil => rw [hcand] at hhead; simp at hhead
    | cons c cs =>
        rw [hcand] at hhead
        simp only [List.head?_cons, Option.some.injEq] at hhead
        rw [hhead] at hcand
        have hfind : findPrice calcPrice
            (usageOf tokenCount prompt messages assistantMessage)
            (getPricingModelCandidates g publicModelId) = some (u, p) := by
          rw [hcand]
          unfold findPrice
          rw [hp]
        simp [computeCost, hfind]

/-- Witness for C2 at a concrete registry and pricing table: the configured
underlying name `claude-opus-4-5` is chosen (price 3) although the raw
public id `gpt-test` would also price (at 5), and the candidate list agrees
with the specification's ordering. -/
theorem pricing_candidate_order_and_precedence_witness :
    (computeCost witnessRegistry witnessPriceTable String.length "gpt-test"
        [] "sys" "hi").pricingModelId = some "claude-opus-4-5" ∧
    (computeCost witnessRegistry witnessPriceTable String.length "gpt-test"
        [] "sys" "hi").priced = true ∧
    (computeCost witnessRegistry witnessPriceTable String.length "gpt-test"
        [] "sys" "hi").totalCostUSD = 3 ∧
    witnessPriceTable (usageOf String.length "sys" [] "hi") "gpt-test" =
      some { total_price := 5 } ∧
    getPricingModelCandidates witnessRegistry "gpt-test" =
      specCandidateList witnessRegistry "gpt-test" := by
  have h := (pricing_candidate_order_and_precedence witnessRegistry "gpt-test").2
    witnessPriceTable String.length [] "sys" "hi"
    { id := "gpt-test", name := "Test", endpoint := "endpoint",
      model := some "claude-opus-4-5" }
    "claude-opus-4-5" { total_price := 3 }
    rfl rfl (by decide) rfl
  exact ⟨h.1, h.2.1, h.2.2, rfl,
    (pricing_candidate_order_and_precedence witnessRegistry "gpt-test").1⟩

/-- Claim C3: when no pricing candidate yields a non-null price, the result
has priced = false, totalCostUSD = 0 regardless of the computed token
counts, and the warning names the model id and the exhausted candidate
list. -/
theorem pricing_miss_result
    (g : String → Except String LlmModelConfig)
    (calcPrice : TokenUsage → String → Option ModelPrice)
    (tokenCount : String → Nat) (modelId : String)
    (messages : List ChatMessage) (prompt assistantMessage : String)
    (h : ∀ c ∈ getPricingModelCandidates g modelId,
        calcPrice (usageOf tokenCount prompt messages assistantMessage) c = none) :
    (computeCost g calcPrice tokenCount modelId messages prompt
        assistantMessage).priced = false ∧
    (computeCost g calcPrice tokenCount modelId messages prompt
        assistantMessage).totalCostUSD = 0 ∧
    (computeCost g calcPrice tokenCount modelId messages prompt
        assistantMessage).warning =
      some (pricingMissWarning modelId (getPricingModelCandidates g modelId)) := by
  have hf := findPrice_eq_none calcPrice
    (usageOf tokenCount prompt messages assistantMessage)
    (getPricingModelCandidates g modelId) h
  have hlen : (getPricingModelCandidates g modelId).length > 0 :=
    List.length_pos.mpr (getPricingModelCandidates_ne_nil g modelId)
  simp [computeCost, hf, hlen]

/-- Witness for C3 at a concrete input: a registry whose lookup throws and
a pricing table that never resolves yield an unpriced zero-cost result with
the exact warning string. -/
theorem pricing_miss_result_witness :
    (computeCost witnessEmptyRegistry witnessEmptyPriceTable String.length
        "mystery-model" [] "p" "a").priced = false ∧
    (computeCost witnessEmptyRegistry witnessEmptyPriceTable String.length
        "mystery-model" [] "p" "a").totalCostUSD = 0 ∧
    (computeCost witnessEmptyRegistry witnessEmptyPriceTable String.length
        "mystery-model" [] "p" "a").warning =
      some "No price found for model \"mystery-model\". Tried: mystery-model" := by
  have h := pricing_miss_result witnessEmptyRegistry witnessEmptyPriceTable
    String.length "mystery-model" [] "p" "a" (fun c _ => rfl)
  refine ⟨h.1, h.2.1, ?_⟩
  rw [h.2.2]
  decide

/-- Claim C6 (code bug evidence): when tokenization throws partway through
the messages, the handler returns from the catch block without invoking
`encoding.free()` on the already constructed encoder; the boolean component
of `runTokenization` records that the free operation did not run on this
error path. -/
theorem tokenizer_not_freed_on_error :
    runTokenization witnessThrowingEncode "system prompt"
        [{ role := "user", content := "BAD" }] "reply" =
      (.error "tokenizer failure", false) := by
  rfl

/-- Claim C8: the returned inputTokens is the token count of the system
prompt plus the sum of the token counts of the prior messages' contents in
order, and the returned outputTokens is the token count of the assistant
reply. -/
theorem cost_token_counts
    (g : String → Except String LlmModelConfig)
    (calcPrice : TokenUsage → String → Option ModelPrice)
    (tokenCount : String → Nat) (modelId : String)
    (messages : List ChatMessage) (prompt assistantMessage : String) :
    (computeCost g calcPrice tokenCount modelId messages prompt
        assistantMessage).inputTokens =
      tokenCount prompt +
        (messages.map (fun m => tokenCount m.content)).sum ∧
    (computeCost g calcPrice tokenCount modelId messages prompt
        assistantMessage).outputTokens = tokenCount assistantMessage := by
  cases hf : findPrice calcPrice
      (usageOf tokenCount prompt messages assistantMessage)
      (getPricingModelCandidates g modelId) with
  | none =>
      simp only [computeCost]
      rw [hf]
      simp [usageOf, foldl_add_tokenCount]
  | some cp =>
      cases cp with
      | mk c p =>
          simp only [computeCost]
          rw [hf]
          simp [usageOf, foldl_add_tokenCount]

/-- Claim C9: for every public model id, even when the configuration lookup
throws, the pricing candidate list is non-empty and contains the public id
itself. -/
theorem pricing_candidates_nonempty_contains_id
    (g : String → Except String LlmModelConfig) (id : String) :
    id ∈ getPricingModelCandidates g id ∧
    getPricingModelCandidates g id ≠ [] :=
  ⟨self_mem_getPricingModelCandidates g id,
   getPricingModelCandidates_ne_nil g id⟩

/-! ### Lemmas about the usage aggregation -/

theorem foldl_aggStep_totals (events : List DashboardUsageEvent) :
    ∀ s : AggState,
      (events.foldl aggStep s).totals = events.foldl totalsStep s.totals := by
  induction events with
  | nil => intro s; rfl
  | cons e es ih =>
      intro s
      simp only [List.foldl_cons]
      rw [ih]
      rfl

theorem foldl_aggStep_byDayMap (events : List DashboardUsageEvent) :
    ∀ s : AggState,
      (events.foldl aggStep s).byDayMap = events.foldl dayStep s.byDayMap := by
  induction events with
  | nil => intro s; rfl
  | cons e es ih =>
      intro s
      simp only [List.foldl_cons]
      rw [ih]
      rfl

theorem foldl_aggStep_byModelMap (events : List DashboardUsageEvent) :
    ∀ s : AggState,
      (events.foldl aggStep s).byModelMap =
        events.foldl modelStep s.byModelMap := by
  induction events with
  | nil => intro s; rfl
  | cons e es ih =>
      intro s
      simp only [List.foldl_cons]
      rw [ih]
      rfl

theorem foldl_aggStep_byUserMap (events : List DashboardUsageEvent) :
    ∀ s : AggState,
      (events.foldl aggStep s).byUserMap =
        events.foldl userStep s.byUserMap := by
  induction events with
  | nil => intro s; rfl
  | cons e es ih =>
      intro s
      simp only [List.foldl_cons]
      rw [ih]
      rfl

theorem foldl_totalsStep_totalCostUSD (events : List DashboardUsageEvent) :
    ∀ t : DashboardUsageTotals,
      (events.foldl totalsStep t).totalCostUSD =
        t.totalCostUSD + (events.map (fun e => e.totalCostUSD)).sum := by
  induction events with
  | nil => intro t; simp
  | cons e es ih =>
      intro t
      simp only [List.foldl_cons, List.map_cons, List.sum_cons, ih, totalsStep]
      ring

theorem foldl_totalsStep_inputTokens (events : List DashboardUsageEvent) :
    ∀ t : DashboardUsageTotals,
      (events.foldl totalsStep t).inputTokens =
        t.inputTokens + (events.map (fun e => e.inputTokens)).sum := by
  induction events with
  | nil => intro t; simp
  | cons e es ih =>
      intro t
      simp only [List.foldl_cons, List.map_cons, List.sum_cons, ih, totalsStep]
      omega

theorem foldl_totalsStep_outputTokens (events : List DashboardUsageEvent) :
    ∀ t : DashboardUsageTotals,
      (events.foldl totalsStep t).outputTokens =
        t.outputTokens + (events.map (fun e => e.outputTokens)).sum := by
  induction events with
  | nil => intro t; simp
  | cons e es ih =>
      intro t
      simp only [List.foldl_cons, List.map_cons, List.sum_cons, ih, totalsStep]
      omega

theorem foldl_totalsStep_assistantMessages (events : List DashboardUsageEvent) :
    ∀ t : DashboardUsageTotals,
      (events.foldl totalsStep t).assistantMessages =
        t.assistantMessages + events.length := by
  induction events with
  | nil => intro t; simp
  | cons e es ih =>
      intro t
      simp only [List.foldl_cons, List.length_cons, ih, totalsStep]
      omega

theorem foldl_totalsStep_pricedAssistantMessages
    (events : List DashboardUsageEvent) :
    ∀ t : DashboardUsageTotals,
      (events.foldl totalsStep t).pricedAssistantMessages =
        t.pricedAssistantMessages +
          (events.filter (fun e => e.priced)).length := by
  induction events with
  | nil => intro t; simp
  | cons e es ih =>
      intro t
      cases hp : e.priced <;>
        (simp [List.filter_cons, hp, ih, totalsStep]; try omega)

theorem map_sum_bumpDay_cost (e : DashboardUsageEvent) :
    ∀ m : List DashboardUsageByDayRow,
      ((bumpDay e m).map (fun r => r.totalCostUSD)).sum =
        (m.map (fun r => r.totalCostUSD)).sum + e.totalCostUSD := by
  intro m
  induction m with
  | nil => simp [bumpDay]
  | cons r rs ih =>
      by_cases h : r.day = eventDay e
      · simp [bumpDay, h]
        ring
      · simp [bumpDay, h, ih]
        ring

theorem bumpDay_days (e : DashboardUsageEvent) :
    ∀ m : List DashboardUsageByDayRow,
      (bumpDay e m).map (fun r => r.day) =
        addUnique (m.map (fun r => r.day)) (eventDay e) := by
  intro m
  induction m with
  | nil => simp [bumpDay, addUnique]
  | cons r rs ih =>
      unfold bumpDay
      by_cases h : r.day = eventDay e
      · rw [if_pos h]
        have hmem : eventDay e ∈ r.day :: rs.map (fun x => x.day) := by
          rw [h]
          exact List.mem_cons_self _ _
        simp only [List.map_cons]
        unfold addUnique
        rw [if_pos hmem]
      · rw [if_neg h]
        by_cases hm : eventDay e ∈ rs.map (fun x => x.day)
        · have hmem : eventDay e ∈ r.day :: rs.map (fun x => x.day) :=
            List.mem_cons_of_mem _ hm
          have h1 : addUnique (rs.map (fun x => x.day)) (eventDay e) =
              rs.map (fun x => x.day) := by
            unfold addUnique
            rw [if_pos hm]
          have h2 : addUnique (r.day :: rs.map (fun x => x.day)) (eventDay e) =
              r.day :: rs.map (fun x => x.day) := by
            unfold addUnique
            rw [if_pos hmem]
          simp only [List.map_cons, ih, h1, h2]
        · have hnotin : eventDay e ∉ r.day :: rs.map (fun x => x.day) := by
            intro hc
            rcases List.mem_cons.mp hc with hc1 | hc2
            · exact h hc1.symm
            · exact hm hc2
          have h1 : addUnique (rs.map (fun x => x.day)) (eventDay e) =
              rs.map (fun x => x.day) ++ [eventDay e] := by
            unfold addUnique
            rw [if_neg hm]
          have h2 : addUnique (r.day :: rs.map (fun x => x.day)) (eventDay e) =
              (r.day :: rs.map (fun x => x.day)) ++ [eventDay e] := by
            unfold addUnique
            rw [if_neg hnotin]
          simp only [List.map_cons, ih, h1, h2, List.cons_append]

theorem foldl_dayStep_filter (events : List DashboardUsageEvent) :
    ∀ m : List DashboardUsageByDayRow,
      events.foldl dayStep m =
        (events.filter (fun e => eventDay e ≠ "")).foldl dayStep m := by
  induction events with
  | nil => intro m; rfl
  | cons e es ih =>
      intro m
      by_cases h : eventDay e = "" <;>
        simp [List.filter_cons, h, dayStep, ih]

theorem foldl_dayStep_cost (events : List DashboardUsageEvent) :
    ∀ m : List DashboardUsageByDayRow,
      ((events.foldl dayStep m).map (fun r => r.totalCostUSD)).sum =
        (m.map (fun r => r.totalCostUSD)).sum +
          ((events.filter (fun e => eventDay e ≠ "")).map
            (fun e => e.totalCostUSD)).sum := by
  induction events with
  | nil => intro m; simp
  | cons e es ih =>
      intro m
      by_cases h : eventDay e = ""
      · simp [List.filter_cons, h, dayStep, ih]
      · simp [List.filter_cons, h, dayStep, ih, map_sum_bumpDay_cost]
        ring

theorem foldl_dayStep_days (events : List DashboardUsageEvent) :
    ∀ m : List DashboardUsageByDayRow,
      (events.foldl dayStep m).map (fun r => r.day) =
        ((events.filter (fun e => eventDay e ≠ "")).map eventDay).foldl
          addUnique (m.map (fun r => r.day)) := by
  induction events with
  | nil => intro m; rfl
  | cons e es ih =>
      intro m
      by_cases h : eventDay e = "" <;>
        simp [List.filter_cons, h, dayStep, ih, bumpDay_days]

theorem map_sum_bumpModel_cost (e : DashboardUsageEvent) :
    ∀ m : List DashboardUsageByModelRow,
      ((bumpModel e m).map (fun r => r.totalCostUSD)).sum =
        (m.map (fun r => r.totalCostUSD)).sum + e.totalCostUSD := by
  intro m
  induction m with
  | nil => simp [bumpModel]
  | cons r rs ih =>
      by_cases h : r.model = modelKey e
      · simp [bumpModel, h]
        ring
      · simp [bumpModel, h, ih]
        ring

theorem map_sum_bumpModel_msgs (e : DashboardUsageEvent) :
    ∀ m : List DashboardUsageByModelRow,
      ((bumpModel e m).map (fun r => r.assistantMessages)).sum =
        (m.map (fun r => r.assistantMessages)).sum + 1 := by
  intro m
  induction m with
  | nil => simp [bumpModel]
  | cons r rs ih =>
      by_cases h : r.model = modelKey e
      · simp [bumpModel, h]
        omega
      · simp [bumpModel, h, ih]
        omega

theorem foldl_modelStep_cost (events : List DashboardUsageEvent) :
    ∀ m : List DashboardUsageByModelRow,
      ((events.foldl modelStep m).map (fun r => r.totalCostUSD)).sum =
        (m.map (fun r => r.totalCostUSD)).sum +
          (events.map (fun e => e.totalCostUSD)).sum := by
  induction events with
  | nil => intro m; simp
  | cons e es ih =>
      intro m
      simp [modelStep, ih, map_sum_bumpModel_cost]
      ring

theorem foldl_modelStep_msgs (events : List DashboardUsageEvent) :
    ∀ m : List DashboardUsageByModelRow,
      ((events.foldl modelStep m).map (fun r => r.assistantMessages)).sum =
        (m.map (fun r => r.assistantMessages)).sum + events.length := by
  induction events with
  | nil => intro m; simp
  | cons e es ih =>
      intro m
      simp [modelStep, ih, map_sum_bumpModel_msgs]
      omega

theorem map_sum_bumpUser_cost (e : DashboardUsageEvent) :
    ∀ m : List DashboardUsageByUserRow,
      ((bumpUser e m).map (fun r => r.totalCostUSD)).sum =
        (m.map (fun r => r.totalCostUSD)).sum + e.totalCostUSD := by
  intro m
  induction m with
  | nil => simp [bumpUser]
  | cons r rs ih =>
      by_cases h : r.userId = userKey e
      · simp [bumpUser, h]
        ring
      · simp [bumpUser, h, ih]
        ring

theorem map_sum_bumpUser_msgs (e : DashboardUsageEvent) :
    ∀ m : List DashboardUsageByUserRow,
      ((bumpUser e m).map (fun r => r.assistantMessages)).sum =
        (m.map (fun r => r.assistantMessages)).sum + 1 := by
  intro m
  induction m with
  | nil => simp [bumpUser]
  | cons r rs ih =>
      by_cases h : r.userId = userKey e
      · simp [bumpUser, h]
        omega
      · simp [bumpUser, h, ih]
        omega

theorem foldl_userStep_cost (events : List DashboardUsageEvent) :
    ∀ m : List DashboardUsageByUserRow,
      ((events.foldl userStep m).map (fun r => r.totalCostUSD)).sum =
        (m.map (fun r => r.totalCostUSD)).sum +
          (events.map (fun e => e.totalCostUSD)).sum := by
  induction events with
  | nil => intro m; simp
  | cons e es ih =>
      intro m
      simp [userStep, ih, map_sum_bumpUser_cost]
      ring

theorem foldl_userStep_msgs (events : List DashboardUsageEvent) :
    ∀ m : List DashboardUsageByUserRow,
      ((events.foldl userStep m).map (fun r => r.assistantMessages)).sum =
        (m.map (fun r => r.assistantMessages)).sum + events.length := by
  induction events with
  | nil => intro m; simp
  | cons e es ih =>
      intro m
      simp [userStep, ih, map_sum_bumpUser_msgs]
      omega

theorem map_eq_replicate_of_const [AddCommMonoid β] (f : α → β) (c : β) :
    ∀ l : List α, (∀ x ∈ l, f x = c) →
      l.map f = List.replicate l.length c := by
  intro l
  induction l with
  | nil => intro h; rfl
  | cons x xs ih =>
      intro h
      simp only [List.map_cons, List.length_cons, List.replicate_succ]
      rw [h x (List.mem_cons_self x xs), ih (fun y hy => h y (List.mem_cons_of_mem x hy))]

theorem bumpDay_of_not_mem (e : DashboardUsageEvent) :
    ∀ m : List DashboardUsageByDayRow,
      eventDay e ∉ m.map (fun r => r.day) →
      bumpDay e m = m ++
        [{ day := eventDay e, totalCostUSD := e.totalCostUSD,
           inputTokens := e.inputTokens, outputTokens := e.outputTokens,
           assistantMessages := 1 }] := by
  intro m
  induction m with
  | nil => intro h; rfl
  | cons r rs ih =>
      intro h
      simp only [List.map_cons, List.mem_cons] at h
      push_neg at h
      obtain ⟨ha, hb⟩ := h
      unfold bumpDay
      rw [if_neg (fun hh => ha hh.symm), ih hb]
      simp

/-- When the (non-empty) day keys of the events are pairwise distinct and
none is already present, the byDay fold appends one fresh row per event. -/
theorem foldl_dayStep_nodup_days (events : List DashboardUsageEvent) :
    ∀ m : List DashboardUsageByDayRow,
      (∀ e ∈ events, eventDay e ≠ "") →
      (∀ e ∈ events, eventDay e ∉ m.map (fun r => r.day)) →
      (events.map eventDay).Nodup →
      events.foldl dayStep m = m ++ events.map
        (fun e =>
          { day := eventDay e, totalCostUSD := e.totalCostUSD,
            inputTokens := e.inputTokens, outputTokens := e.outputTokens,
            assistantMessages := 1 }) := by
  induction events with
  | nil => intro m _ _ _; simp
  | cons e es ih =>
      intro m hne hnm hnd
      simp only [List.map_cons, List.nodup_cons] at hnd
      obtain ⟨hd1, hd2⟩ := hnd
      have hde : eventDay e ≠ "" := hne e (List.mem_cons_self e es)
      have hstep : dayStep m e = m ++
          [{ day := eventDay e, totalCostUSD := e.totalCostUSD,
             inputTokens := e.inputTokens, outputTokens := e.outputTokens,
             assistantMessages := 1 }] := by
        rw [dayStep, if_neg hde]
        exact bumpDay_of_not_mem e m (hnm e (List.mem_cons_self e es))
      simp only [List.foldl_cons, hstep]
      rw [ih _ (fun x hx => hne x (List.mem_cons_of_mem e hx))
        (fun x hx => by
          simp only [List.map_append, List.map_cons, List.map_nil,
            List.mem_append, List.mem_singleton]
          push_neg
          refine ⟨hnm x (List.mem_cons_of_mem e hx), ?_⟩
          intro hc
          exact hd1 (hc ▸ List.mem_map_of_mem eventDay hx))
        hd2]
      simp

theorem aggStateOf_byDayMap (events : List DashboardUsageEvent) :
    (aggStateOf events).byDayMap = events.foldl dayStep [] := by
  rw [aggStateOf, foldl_aggStep_byDayMap]
  rfl

theorem aggStateOf_byModelMap (events : List DashboardUsageEvent) :
    (aggStateOf events).byModelMap = events.foldl modelStep [] := by
  rw [aggStateOf, foldl_aggStep_byModelMap]
  rfl

theorem aggStateOf_byUserMap (events : List DashboardUsageEvent) :
    (aggStateOf events).byUserMap = events.foldl userStep [] := by
  rw [aggStateOf, foldl_aggStep_byUserMap]
  rfl

theorem aggStateOf_totals (events : List DashboardUsageEvent) :
    (aggStateOf events).totals = events.foldl totalsStep initTotals := by
  rw [aggStateOf, foldl_aggStep_totals]
  rfl

/-- Claim C1: the totals returned by the usage aggregator are the
elementwise sums over all events (cost, input tokens, output tokens),
assistantMessages is the event count, pricedAssistantMessages is the count
of events with priced = true, and for the empty event list all five totals
are zero. -/
theorem usage_totals_elementwise_sums (events : List DashboardUsageEvent) :
    (aggregateUsage events).totals.totalCostUSD =
      (events.map (fun e => e.totalCostUSD)).sum ∧
    (aggregateUsage events).totals.inputTokens =
      (events.map (fun e => e.inputTokens)).sum ∧
    (aggregateUsage events).totals.outputTokens =
      (events.map (fun e => e.outputTokens)).sum ∧
    (aggregateUsage events).totals.assistantMessages = events.length ∧
    (aggregateUsage events).totals.pricedAssistantMessages =
      (events.filter (fun e => e.priced)).length ∧
    (aggregateUsage []).totals =
      { totalCostUSD := 0, inputTokens := 0, outputTokens := 0,
        assistantMessages := 0, pricedAssistantMessages := 0 } := by
  have htot : (aggregateUsage events).totals =
      events.foldl totalsStep initTotals := by
    show (aggStateOf events).totals = _
    rw [aggStateOf, foldl_aggStep_totals]
    rfl
  refine ⟨?_, ?_, ?_, ?_, ?_, rfl⟩
  · rw [htot, foldl_totalsStep_totalCostUSD]
    simp [initTotals]
  · rw [htot, foldl_totalsStep_inputTokens]
    simp [initTotals]
  · rw [htot, foldl_totalsStep_outputTokens]
    simp [initTotals]
  · rw [htot, foldl_totalsStep_assistantMessages]
    simp [initTotals]
  · rw [htot, foldl_totalsStep_pricedAssistantMessages]
    simp [initTotals]

/-- Counterexample to claim C4 as stated: the event `evGarbage` has
createdAt = "garbage", which is not parseable as a timestamp, yet it is NOT
excluded from the byDay grouping — the aggregator buckets it under the day
string "garbage" (the code only checks `typeof createdAt === 'string'` and
takes the first 10 characters; it never parses). -/
theorem byDay_includes_unparseable_createdAt :
    (aggregateUsage [evGarbage]).byDay.map (fun r => r.day) = ["garbage"] ∧
    (aggregateUsage [evGarbage]).byDay ≠ [] := by
  decide

/-- Claim C4 (amended): an event whose createdAt is missing (not a string)
or empty is excluded from the byDay grouping and only from it — it still
contributes to totals and to the byModel and byUser roll-ups, and its
presence never aborts the aggregation (the embedding is total); every
event with a non-empty string createdAt, parseable as a timestamp or not,
is bucketed by the first 10 characters of that string.  Conjuncts: the
byDay map ignores events with an empty day key; totals count every event;
the byModel and byUser roll-ups account every event; the byDay keys are
exactly the first-10-character day strings of the kept events in first
occurrence order. -/
theorem byDay_exclusion_amended (events : List DashboardUsageEvent) :
    (aggStateOf events).byDayMap =
      (aggStateOf (events.filter (fun e => eventDay e ≠ ""))).byDayMap ∧
    (aggregateUsage events).totals.assistantMessages = events.length ∧
    ((aggStateOf events).byModelMap.map (fun r => r.assistantMessages)).sum =
      events.length ∧
    ((aggStateOf events).byUserMap.map (fun r => r.assistantMessages)).sum =
      events.length ∧
    (aggStateOf events).byDayMap.map (fun r => r.day) =
      dedupFirst ((events.filter (fun e => eventDay e ≠ "")).map eventDay) := by
  refine ⟨?_, ?_, ?_, ?_, ?_⟩
  · rw [aggStateOf_byDayMap, aggStateOf_byDayMap]
    exact foldl_dayStep_filter events []
  · show (aggStateOf events).totals.assistantMessages = events.length
    rw [aggStateOf_totals, foldl_totalsStep_assistantMessages]
    simp [initTotals]
  · rw [aggStateOf_byModelMap, foldl_modelStep_msgs]
    simp
  · rw [aggStateOf_byUserMap, foldl_userStep_msgs]
    simp
  · rw [aggStateOf_byDayMap, foldl_dayStep_days]
    simp [dedupFirst]

/-- Counterexample to claim C5 as stated: 61 events on 61 distinct days,
each with cost 1 and with day, model and user keys all present.  The byDay
roll-up is truncated to the 60 most recent days, so its row costs sum to
60 while totals.totalCostUSD is 61. -/
theorem rollup_sum_truncation_counterexample :
    ((aggregateUsage manyDayEvents).byDay.map (fun r => r.totalCostUSD)).sum ≠
      (aggregateUsage manyDayEvents).totals.totalCostUSD ∧
    (∀ e ∈ manyDayEvents,
      eventDay e ≠ "" ∧ e.modelId.isSome = true ∧ e.userId.isSome = true) := by
  have hcost : ∀ e ∈ manyDayEvents, e.totalCostUSD = (1 : ℚ) := by
    intro e he
    simp only [manyDayEvents, List.mem_map] at he
    obtain ⟨i, _, rfl⟩ := he
    rfl
  have hbd : (aggStateOf manyDayEvents).byDayMap = manyDayEvents.map
      (fun e =>
        { day := eventDay e, totalCostUSD := e.totalCostUSD,
          inputTokens := e.inputTokens, outputTokens := e.outputTokens,
          assistantMessages := 1 }) := by
    rw [aggStateOf_byDayMap,
      foldl_dayStep_nodup_days manyDayEvents [] (by decide) (by simp) (by decide)]
    simp
  have hlen : (aggStateOf manyDayEvents).byDayMap.length = 61 := by
    rw [hbd, List.length_map]
    decide
  have hall : ∀ r ∈ (sortBy dayRowLe (aggStateOf manyDayEvents).byDayMap).take 60,
      r.totalCostUSD = (1 : ℚ) := by
    intro r hr
    have hr1 := List.take_subset 60 _ hr
    rw [mem_sortBy, hbd] at hr1
    obtain ⟨e, he, rfl⟩ := List.mem_map.mp hr1
    exact hcost e he
  have hsum60 : ((aggregateUsage manyDayEvents).byDay.map
      (fun r => r.totalCostUSD)).sum = (60 : ℚ) := by
    show (((sortBy dayRowLe (aggStateOf manyDayEvents).byDayMap).take 60).map
        (fun r => r.totalCostUSD)).sum = (60 : ℚ)
    rw [map_eq_replicate_of_const _ _ _ hall, List.sum_replicate,
      List.length_take, length_sortBy, hlen]
    norm_num
  have hsum61 : (aggregateUsage manyDayEvents).totals.totalCostUSD = (61 : ℚ) := by
    show (aggStateOf manyDayEvents).totals.totalCostUSD = (61 : ℚ)
    rw [aggStateOf_totals, foldl_totalsStep_totalCostUSD,
      map_eq_replicate_of_const _ _ _ hcost, List.sum_replicate]
    have h61 : manyDayEvents.length = 61 := by decide
    rw [h61]
    simp [initTotals]
  refine ⟨?_, by decide⟩
  rw [hsum60, hsum61]
  norm_num

/-- Claim C5 (amended): when every event carries its grouping keys (a
non-empty day string, a model id and a user id) and each roll-up has no
more distinct keys than its truncation limit (60 days, 50 models, 50
users), summing the per-row totalCostUSD over the rows of any one of the
byDay, byModel or byUser roll-ups equals totals.totalCostUSD. -/
theorem rollup_sums_reconcile_amended (events : List DashboardUsageEvent)
    (h1 : ∀ e ∈ events, eventDay e ≠ "")
    (_h2 : ∀ e ∈ events, e.modelId.isSome = true)
    (_h3 : ∀ e ∈ events, e.userId.isSome = true)
    (hd : (aggStateOf events).byDayMap.length ≤ 60)
    (hm : (aggStateOf events).byModelMap.length ≤ 50)
    (hu : (aggStateOf events).byUserMap.length ≤ 50) :
    ((aggregateUsage events).byDay.map (fun r => r.totalCostUSD)).sum =
      (aggregateUsage events).totals.totalCostUSD ∧
    ((aggregateUsage events).byModel.map (fun r => r.totalCostUSD)).sum =
      (aggregateUsage events).totals.totalCostUSD ∧
    ((aggregateUsage events).topUsers.map (fun r => r.totalCostUSD)).sum =
      (aggregateUsage events).totals.totalCostUSD := by
  have hfil : events.filter (fun e => eventDay e ≠ "") = events :=
    List.filter_eq_self.mpr (fun a ha => by simpa using h1 a ha)
  have htot : (aggregateUsage events).totals.totalCostUSD =
      (events.map (fun e => e.totalCostUSD)).sum := by
    show (aggStateOf events).totals.totalCostUSD = _
    rw [aggStateOf_totals, foldl_totalsStep_totalCostUSD]
    simp [initTotals]
  refine ⟨?_, ?_, ?_⟩
  · have hlen : (sortBy dayRowLe (aggStateOf events).byDayMap).length ≤ 60 := by
      rw [length_sortBy]
      exact hd
    show (((sortBy dayRowLe (aggStateOf events).byDayMap).take 60).map
        (fun r => r.totalCostUSD)).sum = _
    rw [take_of_length_le hlen, map_sum_sortBy, aggStateOf_byDayMap,
      foldl_dayStep_cost, hfil, htot]
    simp
  · have hlen : (sortBy modelRowLe (aggStateOf events).byModelMap).length ≤ 50 := by
      rw [length_sortBy]
      exact hm
    show (((sortBy modelRowLe (aggStateOf events).byModelMap).take 50).map
        (fun r => r.totalCostUSD)).sum = _
    rw [take_of_length_le hlen, map_sum_sortBy, aggStateOf_byModelMap,
      foldl_modelStep_cost, htot]
    simp
  · have hlen : (sortBy userRowLe (aggStateOf events).byUserMap).length ≤ 50 := by
      rw [length_sortBy]
      exact hu
    show (((sortBy userRowLe (aggStateOf events).byUserMap).take 50).map
        (fun r => r.totalCostUSD)).sum = _
    rw [take_of_length_le hlen, map_sum_sortBy, aggStateOf_byUserMap,
      foldl_userStep_cost, htot]
    simp

/-- Witness for the amended C5 at the two-event fixture of the
specification's aggregation scenario. -/
theorem rollup_sums_reconcile_amended_witness :
    ((aggregateUsage reconcileEvents).byDay.map (fun r => r.totalCostUSD)).sum =
      (aggregateUsage reconcileEvents).totals.totalCostUSD ∧
    ((aggregateUsage reconcileEvents).byModel.map (fun r => r.totalCostUSD)).sum =
      (aggregateUsage reconcileEvents).totals.totalCostUSD ∧
    ((aggregateUsage reconcileEvents).topUsers.map (fun r => r.totalCostUSD)).sum =
      (aggregateUsage reconcileEvents).totals.totalCostUSD :=
  rollup_sums_reconcile_amended reconcileEvents (by decide) (by decide)
    (by decide) (by decide) (by decide) (by decide)

/-! ### Lemmas about the topic extraction -/

theorem nodup_extractKeywords (t : String) : (extractKeywords t).Nodup :=
  nodup_dedupFirst _

theorem countOf_bumpKeyword (docId : String) (ts : Option Nat)
    (question k : String) :
    ∀ (m : List (String × KeywordInfo)) (q : String),
      countOf (bumpKeyword docId ts question k m) q =
        countOf m q + (if q = k then 1 else 0) := by
  intro m
  induction m with
  | nil =>
      intro q
      by_cases h : k = q
      · subst h
        simp [bumpKeyword, countOf, freshKeywordInfo]
      · simp only [bumpKeyword, countOf, if_neg h,
          if_neg (fun hh : q = k => h hh.symm)]
  | cons e rest ih =>
      intro q
      obtain ⟨k0, info⟩ := e
      by_cases hk : k0 = k
      · simp only [bumpKeyword, if_pos hk]
        by_cases hq : k0 = q
        · have hqk : q = k := hq ▸ hk
          simp only [countOf, if_pos hq, if_pos hqk, updateKeywordInfo]
        · have hqk : ¬ q = k := fun hh => hq (hk.trans hh.symm)
          simp only [countOf, if_neg hq, if_neg hqk]
          simp
      · simp only [bumpKeyword, if_neg hk]
        by_cases hq : k0 = q
        · have hqk : ¬ q = k := fun hh => hk (hq.trans hh)
          simp only [countOf, if_pos hq, if_neg hqk]
          simp
        · simp only [countOf, if_neg hq]
          exact ih q

theorem countOf_foldl_bump (docId : String) (ts : Option Nat)
    (question : String) :
    ∀ (tokens : List String) (m : List (String × KeywordInfo)) (q : String),
      tokens.Nodup →
      countOf (tokens.foldl
          (fun m k => bumpKeyword docId ts question k m) m) q =
        countOf m q + (if q ∈ tokens then 1 else 0) := by
  intro tokens
  induction tokens with
  | nil => intro m q _; simp
  | cons t rest ih =>
      intro m q hnd
      obtain ⟨ht, hrest⟩ := List.nodup_cons.mp hnd
      simp only [List.foldl_cons]
      rw [ih (bumpKeyword docId ts question t m) q hrest, countOf_bumpKeyword]
      by_cases hq : q = t
      · subst hq
        rw [if_pos rfl, if_pos (List.mem_cons_self q rest), if_neg ht]
      · rw [if_neg hq]
        by_cases hm : q ∈ rest
        · rw [if_pos hm, if_pos (List.mem_cons_of_mem t hm)]
        · have : q ∉ t :: rest := by
            intro hc
            rcases List.mem_cons.mp hc with h1 | h2
            · exact hq h1
            · exact hm h2
          rw [if_neg hm, if_neg this]

theorem extractKeywords_empty : extractKeywords "" = [] := by decide

theorem countOf_docStep (doc : RawChatDoc) :
    ∀ (m : List (String × KeywordInfo)) (q : String),
      countOf (docStep m doc) q =
        countOf m q + (if q ∈ docKeywords doc then 1 else 0) := by
  intro m q
  by_cases hq : extractUserQuestion doc = ""
  · have hkw : docKeywords doc = [] := by
      unfold docKeywords
      rw [hq, extractKeywords_empty]
    simp [docStep, hq, hkw]
  · have hstep : docStep m doc = (extractKeywords (extractUserQuestion doc)).foldl
        (fun m k => bumpKeyword doc.id doc.ts (extractUserQuestion doc) k m) m := by
      simp [docStep, hq]
    rw [hstep]
    exact countOf_foldl_bump doc.id doc.ts (extractUserQuestion doc)
      (extractKeywords (extractUserQuestion doc)) m q
      (nodup_extractKeywords _)

theorem countOf_buildCounts_aux (docs : List RawChatDoc) :
    ∀ (m : List (String × KeywordInfo)) (q : String),
      countOf (docs.foldl docStep m) q =
        countOf m q + (docs.filter (fun d => q ∈ docKeywords d)).length := by
  induction docs with
  | nil => intro m q; simp
  | cons d ds ih =>
      intro m q
      simp only [List.foldl_cons]
      rw [ih (docStep m d) q, countOf_docStep]
      by_cases h : q ∈ docKeywords d <;>
        (simp [List.filter_cons, h]; try omega)

theorem countOf_buildCounts (docs : List RawChatDoc) (q : String) :
    countOf (buildCounts docs) q =
      (docs.filter (fun d => q ∈ docKeywords d)).length := by
  rw [buildCounts, countOf_buildCounts_aux]
  simp [countOf]

theorem bumpKeyword_keys (docId : String) (ts : Option Nat)
    (question k : String) :
    ∀ m : List (String × KeywordInfo),
      (bumpKeyword docId ts question k m).map (fun p => p.1) =
        addUnique (m.map (fun p => p.1)) k := by
  intro m
  induction m with
  | nil => simp [bumpKeyword, addUnique]
  | cons e rest ih =>
      obtain ⟨k0, info⟩ := e
      by_cases hk : k0 = k
      · have hmem : k ∈ k0 :: rest.map (fun p => p.1) := by
          rw [hk]
          exact List.mem_cons_self _ _
        simp only [bumpKeyword, if_pos hk, List.map_cons]
        unfold addUnique
        rw [if_pos hmem]
      · simp only [bumpKeyword, if_neg hk, List.map_cons, ih]
        by_cases hm : k ∈ rest.map (fun p => p.1)
        · have hmem : k ∈ k0 :: rest.map (fun p => p.1) :=
            List.mem_cons_of_mem _ hm
          unfold addUnique
          rw [if_pos hm, if_pos hmem]
        · have hnotin : k ∉ k0 :: rest.map (fun p => p.1) := by
            intro hc
            rcases List.mem_cons.mp hc with h1 | h2
            · exact hk h1.symm
            · exact hm h2
          unfold addUnique
          rw [if_neg hm, if_neg hnotin]
          simp

theorem keys_nodup_foldl_bump (docId : String) (ts : Option Nat)
    (question : String) :
    ∀ (tokens : List String) (m : List (String × KeywordInfo)),
      (m.map (fun p => p.1)).Nodup →
      ((tokens.foldl (fun m k => bumpKeyword docId ts question k m) m).map
        (fun p => p.1)).Nodup := by
  intro tokens
  induction tokens with
  | nil => intro m h; simpa using h
  | cons t rest ih =>
      intro m h
      simp only [List.foldl_cons]
      apply ih
      rw [bumpKeyword_keys]
      exact nodup_addUnique h

theorem keys_nodup_buildCounts (docs : List RawChatDoc) :
    ((buildCounts docs).map (fun p => p.1)).Nodup := by
  rw [buildCounts]
  have haux : ∀ (ds : List RawChatDoc) (m : List (String × KeywordInfo)),
      (m.map (fun p => p.1)).Nodup →
      ((ds.foldl docStep m).map (fun p => p.1)).Nodup := by
    intro ds
    induction ds with
    | nil => intro m h; simpa using h
    | cons d rest ih =>
        intro m h
        simp only [List.foldl_cons]
        apply ih
        by_cases hq : extractUserQuestion d = ""
        · simpa [docStep, hq] using h
        · have hstep : docStep m d =
              (extractKeywords (extractUserQuestion d)).foldl
                (fun m k => bumpKeyword d.id d.ts (extractUserQuestion d) k m)
                m := by
            simp [docStep, hq]
          rw [hstep]
          exact keys_nodup_foldl_bump _ _ _ _ m h
  exact haux docs [] (by simp)

theorem countOf_of_mem_nodup_keys :
    ∀ (m : List (String × KeywordInfo)),
      ((m.map (fun p => p.1)).Nodup) →
      ∀ (k : String) (info : KeywordInfo),
        (k, info) ∈ m → countOf m k = info.count := by
  intro m
  induction m with
  | nil => intro _ k info hmem; simp at hmem
  | cons e rest ih =>
      obtain ⟨k0, i0⟩ := e
      intro hnd k info hmem
      simp only [List.map_cons, List.nodup_cons] at hnd
      obtain ⟨h1, h2⟩ := hnd
      rcases List.mem_cons.mp hmem with heq | htail
      · obtain ⟨hk, hi⟩ := Prod.mk.injEq .. ▸ heq
        subst hk
        subst hi
        simp [countOf]
      · have hk : k0 ≠ k := by
          intro hc
          subst hc
          exact h1 (List.mem_map_of_mem (fun p => p.1) htail)
        simp only [countOf, if_neg hk]
        exact ih h2 k info htail

theorem pickCandidate_isSome (used : List String)
    {cands : List TopicCandidate} (hc : cands ≠ []) :
    (pickCandidate used cands).isSome = true := by
  unfold pickCandidate
  cases hf : cands.find? (fun c => !(used.contains c.chatId)) with
  | some c => simp
  | none =>
      simp only
      cases cands with
      | nil => exact absurd rfl hc
      | cons c cs => simp

theorem mem_mkTopicRows :
    ∀ (entries : List (String × KeywordInfo)) (used : List String)
      (row : DashboardTopicRow),
      row ∈ mkTopicRows used entries →
      ∃ (k : String) (info : KeywordInfo),
        (k, info) ∈ entries ∧ row.keyword = k ∧ row.count = info.count ∧
        (info.candidates = [] ∨
          (row.sampleQuestion.isSome = true ∧ row.sampleChatId.isSome = true)) := by
  intro entries
  induction entries with
  | nil => intro used row h; simp [mkTopicRows] at h
  | cons e rest ih =>
      obtain ⟨k, info⟩ := e
      intro used row h
      simp only [mkTopicRows, List.mem_cons] at h
      rcases h with hhead | htail
      · refine ⟨k, info, List.mem_cons_self _ _, ?_, ?_, ?_⟩
        · rw [hhead]
        · rw [hhead]
        · by_cases hc : info.candidates = []
          · exact Or.inl hc
          · right
            have hcand := pickCandidate_isSome used hc
            cases hcv : pickCandidate used info.candidates with
            | none => rw [hcv] at hcand; simp at hcand
            | some c =>
                rw [hhead]
                simp only [hcv, Option.map_some, Option.isSome_some]
                exact ⟨rfl, rfl⟩
      · obtain ⟨k1, info1, hmem1, h1, h2, h3⟩ := ih _ row htail
        exact ⟨k1, info1, List.mem_cons_of_mem _ hmem1, h1, h2, h3⟩

theorem candidates_ne_nil_bumpKeyword (docId : String) (ts : Option Nat)
    (question k : String) :
    ∀ m : List (String × KeywordInfo),
      (∀ p ∈ m, p.2.candidates ≠ []) →
      ∀ p ∈ bumpKeyword docId ts question k m, p.2.candidates ≠ [] := by
  intro m
  induction m with
  | nil =>
      intro _ p hp
      simp only [bumpKeyword, List.mem_singleton] at hp
      subst hp
      simp [freshKeywordInfo]
  | cons e rest ih =>
      obtain ⟨k0, info⟩ := e
      intro hm p hp
      by_cases hk : k0 = k
      · simp only [bumpKeyword, if_pos hk, List.mem_cons] at hp
        rcases hp with hp | hp
        · subst hp
          show (updateKeywordInfo docId ts question info).candidates ≠ []
          unfold updateKeywordInfo
          by_cases ha : info.candidates.any (fun c => c.chatId == docId)
          · simpa [ha] using hm (k0, info) (List.mem_cons_self _ _)
          · simp only [ha, if_neg, Bool.false_eq_true, if_false]
            apply take_ne_nil_of_ne_nil
            · apply sortBy_ne_nil
              simp
            · decide
        · exact hm p (List.mem_cons_of_mem _ hp)
      · simp only [bumpKeyword, if_neg hk, List.mem_cons] at hp
        rcases hp with hp | hp
        · subst hp
          exact hm (k0, info) (List.mem_cons_self _ _)
        · exact ih (fun x hx => hm x (List.mem_cons_of_mem _ hx)) p hp

theorem candidates_ne_nil_buildCounts (docs : List RawChatDoc) :
    ∀ p ∈ buildCounts docs, p.2.candidates ≠ [] := by
  rw [buildCounts]
  have haux : ∀ (ds : List RawChatDoc) (m : List (String × KeywordInfo)),
      (∀ p ∈ m, p.2.candidates ≠ []) →
      ∀ p ∈ ds.foldl docStep m, p.2.candidates ≠ [] := by
    intro ds
    induction ds with
    | nil => intro m h; simpa using h
    | cons d rest ih =>
        intro m h
        simp only [List.foldl_cons]
        apply ih
        by_cases hq : extractUserQuestion d = ""
        · simpa [docStep, hq] using h
        · have hstep : docStep m d =
              (extractKeywords (extractUserQuestion d)).foldl
                (fun m k => bumpKeyword d.id d.ts (extractUserQuestion d) k m)
                m := by
            simp [docStep, hq]
          rw [hstep]
          have htok : ∀ (tokens : List String)
              (m0 : List (String × KeywordInfo)),
              (∀ p ∈ m0, p.2.candidates ≠ []) →
              ∀ p ∈ tokens.foldl
                  (fun m k => bumpKeyword d.id d.ts (extractUserQuestion d) k m)
                  m0, p.2.candidates ≠ [] := by
            intro tokens
            induction tokens with
            | nil => intro m0 h0; simpa using h0
            | cons t ts ihs =>
                intro m0 h0
                simp only [List.foldl_cons]
                exact ihs _ (candidates_ne_nil_bumpKeyword _ _ _ _ m0 h0)
          exact htok _ m h
  exact haux docs [] (by simp)

/-! ### Claims about the topic extraction -/

/-- Claim C7: each keyword row's reported count equals the number of
documents whose first user question contains that keyword after
tokenization (tokens are de-duplicated within a document), not the number
of raw occurrences. -/
theorem topic_count_distinct_documents (docs : List RawChatDoc)
    (row : DashboardTopicRow) (hrow : row ∈ computeTopics docs) :
    row.count = (docs.filter (fun d => row.keyword ∈ docKeywords d)).length := by
  obtain ⟨k, info, hmem, hkey, hcount, _⟩ :=
    mem_mkTopicRows _ _ _ hrow
  have hmem2 : (k, info) ∈ buildCounts docs := by
    have h1 := List.take_subset 50 _ hmem
    rwa [mem_sortBy] at h1
  have hcnt := countOf_of_mem_nodup_keys (buildCounts docs)
    (keys_nodup_buildCounts docs) k info hmem2
  rw [hkey, hcount, ← hcnt, countOf_buildCounts]

/-- Witness for C7: with a document whose question repeats "reset" three
times and a second document containing it once, the top row is "reset" with
count 2 (number of documents, not 4 raw occurrences), matching the filter
characterization. -/
theorem topic_count_distinct_documents_witness :
    ((computeTopics topicDocsA).headD defaultTopicRow).count =
      (topicDocsA.filter (fun d =>
        ((computeTopics topicDocsA).headD defaultTopicRow).keyword ∈
          docKeywords d)).length ∧
    ((computeTopics topicDocsA).headD defaultTopicRow).keyword = "reset" ∧
    ((computeTopics topicDocsA).headD defaultTopicRow).count = 2 :=
  ⟨topic_count_distinct_documents topicDocsA _ (by decide), by decide, by decide⟩

/-- Claim C10: every row returned by the topic extractor has both
sampleQuestion and sampleChatId defined, because every keyword entry
retains at least one candidate pair and the row construction falls back to
the top candidate when all candidates' chat ids are already used. -/
theorem topic_rows_sample_fields_present (docs : List RawChatDoc)
    (row : DashboardTopicRow) (hrow : row ∈ computeTopics docs) :
    row.sampleQuestion.isSome = true ∧ row.sampleChatId.isSome = true := by
  obtain ⟨k, info, hmem, _, _, hs⟩ := mem_mkTopicRows _ _ _ hrow
  rcases hs with hnil | hsome
  · exfalso
    have hmem2 : (k, info) ∈ buildCounts docs := by
      have h1 := List.take_subset 50 _ hmem
      rwa [mem_sortBy] at h1
    exact candidates_ne_nil_buildCounts docs (k, info) hmem2 hnil
  · exact hsome

/-- Witness for C10 at a concrete single-document input: the first returned
row has both optional sample fields present. -/
theorem topic_rows_sample_fields_present_witness :
    ((computeTopics topicDocsB).headD defaultTopicRow).sampleQuestion.isSome =
      true ∧
    ((computeTopics topicDocsB).headD defaultTopicRow).sampleChatId.isSome =
      true :=
  topic_rows_sample_fields_present topicDocsB _ (by decide)
